import Mathlib

set_option maxHeartbeats 1000000

/-! Shallow embedding of the kellenth-rs particle-physics core: the Vector3
algebra of src/kellenth/core.rs and the Particle integrator of
src/kellenth/particle.rs.  Scalars of type f64 are modelled as real numbers;
the powf intrinsic used for damping is modelled by Real.rpow and the maximum
finite f64 value by its exact real value.  Rust methods that take the
receiver by value (mut self on a Copy type) are modelled by a function giving
the final state of the callee's local copy, together with a call-level
definition giving the caller's value after the call; a failed assertion is
modelled by the value none. -/

namespace Kellenth

/-- Three-dimensional vector with double-precision components, from core.rs. -/
structure Vector3 where
  x : ℝ
  y : ℝ
  z : ℝ

/-- Scalar multiplication, the Mul overload of Vector3 by an f64 scalar. -/
noncomputable def Vector3.mul_f64 (v : Vector3) (rhs : ℝ) : Vector3 :=
  ⟨v.x * rhs, v.y * rhs, v.z * rhs⟩

/-- In-place scalar multiplication, the MulAssign overload: the result is the
new value of the mutated receiver. -/
noncomputable def Vector3.mul_assign (v : Vector3) (rhs : ℝ) : Vector3 :=
  ⟨v.x * rhs, v.y * rhs, v.z * rhs⟩

/-- The Rem overload of core.rs: the pure cross product of self and rhs. -/
noncomputable def Vector3.rem (v rhs : Vector3) : Vector3 :=
  ⟨v.y * rhs.z - v.z * rhs.y,
   v.z * rhs.x - v.x * rhs.z,
   v.x * rhs.y - v.y * rhs.x⟩

/-- The RemAssign overload of core.rs, assigning the receiver's fields in
order exactly as the source does: the second assignment reads the
already-overwritten x field and subtracts rhs.z where the cross product has a
product with rhs.z, and the third assignment reads the overwritten x and y
fields.  The result is the new value of the mutated receiver. -/
noncomputable def Vector3.rem_assign (v rhs : Vector3) : Vector3 :=
  let newx := v.y * rhs.z - v.z * rhs.y
  let newy := v.z * rhs.x - newx - rhs.z
  let newz := newx * rhs.y - newy * rhs.x
  ⟨newx, newy, newz⟩

/-- add_scaled_vector: adds vector * scalar to the receiver component-wise;
the result is the new value of the mutated receiver. -/
noncomputable def Vector3.add_scaled_vector (v vector : Vector3) (scalar : ℝ) : Vector3 :=
  ⟨v.x + vector.x * scalar, v.y + vector.y * scalar, v.z + vector.z * scalar⟩

/-- vector_product: the pure cross product of self and the given vector. -/
noncomputable def Vector3.vector_product (v vector : Vector3) : Vector3 :=
  ⟨v.y * vector.z - v.z * vector.y,
   v.z * vector.x - v.x * vector.z,
   v.x * vector.y - v.y * vector.x⟩

/-- scalar_product: the dot product of self and the given vector. -/
noncomputable def Vector3.scalar_product (v vector : Vector3) : ℝ :=
  v.x * vector.x + v.y * vector.y + v.z * vector.z

/-- invert: multiplies every component by minus one; the result is the new
value of the mutated receiver. -/
noncomputable def Vector3.invert (v : Vector3) : Vector3 :=
  ⟨v.x * (-1), v.y * (-1), v.z * (-1)⟩

/-- magnitude: the square root of the sum of the squared components. -/
noncomputable def Vector3.magnitude (v : Vector3) : ℝ :=
  Real.sqrt (v.x * v.x + v.y * v.y + v.z * v.z)

/-- normalize: when the magnitude is positive, scale the receiver by its
reciprocal; otherwise leave the receiver unchanged.  The result is the new
value of the mutated receiver. -/
noncomputable def Vector3.normalize (v : Vector3) : Vector3 :=
  let l := v.magnitude
  if l > 0 then v.mul_assign (1 / l) else v

/-- get_normalized: the pure variant; the source copies self into a local
and normalizes the copy, returning it. -/
noncomputable def Vector3.get_normalized (v : Vector3) : Vector3 :=
  let l := v.magnitude
  let dist := v
  if l > 0 then dist.mul_assign (1 / l) else dist

/-- A Rust method call whose receiver is taken by value on a Copy type: the
callee works on a copy of the receiver.  The first component is the caller's
value after the call, the second is the callee's result. -/
def byValueCall {A B : Type} (receiver : A) (body : A → B) : A × B :=
  (receiver, body receiver)

/-- Point-mass particle state, from particle.rs. -/
structure Particle where
  position : Vector3
  velocity : Vector3
  acceleration : Vector3
  damping : ℝ
  accumulatedForce : Vector3
  inverse_mass : ℝ

/-- The maximum finite f64 value, as an exact real number. -/
noncomputable def f64Max : ℝ := 2 ^ 1024 - 2 ^ 971

/-- The Particle constructor: accumulated force starts at zero and the
inverse mass defaults to 0 (immovable). -/
noncomputable def Particle.new (position velocity acceleration : Vector3)
    (damping : ℝ) : Particle :=
  { position := position, velocity := velocity, acceleration := acceleration,
    damping := damping, accumulatedForce := ⟨0, 0, 0⟩, inverse_mass := 0 }

/-- get_inverse_mass: the stored inverse mass. -/
noncomputable def Particle.get_inverse_mass (p : Particle) : ℝ :=
  p.inverse_mass

/-- set_inverse_mass: the final state of the callee's local copy of self,
with the inverse mass replaced verbatim. -/
noncomputable def Particle.set_inverse_mass (p : Particle) (inverse_mass : ℝ) : Particle :=
  { p with inverse_mass := inverse_mass }

/-- get_mass: the reciprocal of the inverse mass, or the maximum finite f64
value as the immovable sentinel when the inverse mass is zero. -/
noncomputable def Particle.get_mass (p : Particle) : ℝ :=
  if p.inverse_mass = 0 then f64Max else 1 / p.inverse_mass

/-- set_mass: none models the assertion failure on a zero mass; otherwise the
final state of the callee's local copy of self, storing the reciprocal. -/
noncomputable def Particle.set_mass (p : Particle) (mass : ℝ) : Option Particle :=
  if mass ≠ 0 then some { p with inverse_mass := 1 / mass } else none

/-- integrate: none models the assertion failure on a non-positive duration;
otherwise the final state of the callee's local copy of self after, in this
order, the position update with the pre-step velocity, the velocity update
from the resultant acceleration, and the damping multiplication by
damping raised to the duration (powf modelled by Real.rpow). -/
noncomputable def Particle.integrate (p : Particle) (duration : ℝ) : Option Particle :=
  if duration > 0 then
    let p1 := { p with position := p.position.add_scaled_vector p.velocity duration }
    let resAcceleration := p1.acceleration
    let p2 := { p1 with velocity := p1.velocity.add_scaled_vector resAcceleration duration }
    some { p2 with velocity := p2.velocity.mul_assign (Real.rpow p2.damping duration) }
  else none

/-- Caller's particle after calling set_inverse_mass: the receiver is passed
by value, so the caller keeps the original. -/
noncomputable def Particle.set_inverse_mass_call (p : Particle) (im : ℝ) : Particle :=
  (byValueCall p (fun s => s.set_inverse_mass im)).1

/-- Caller's particle after calling set_mass: none when the assertion fails
(the program aborts); otherwise the untouched receiver, because the method
mutated only its by-value copy. -/
noncomputable def Particle.set_mass_call (p : Particle) (mass : ℝ) : Option Particle :=
  Option.map (fun _ => p) (p.set_mass mass)

/-- Caller's particle after calling integrate: none when the assertion fails
(the program aborts); otherwise the untouched receiver, because the method
mutated only its by-value copy. -/
noncomputable def Particle.integrate_call (p : Particle) (d : ℝ) : Option Particle :=
  Option.map (fun _ => p) (p.integrate d)

/-- The particle of the spec's integration scenario: position (0,0,0),
velocity (1,0,0), acceleration (0,-9.8,0), damping 1. -/
noncomputable def scenarioParticle : Particle :=
  Particle.new ⟨0, 0, 0⟩ ⟨1, 0, 0⟩ ⟨0, -9.8, 0⟩ 1

/-- A concrete particle used for witnesses. -/
noncomputable def demoParticle : Particle :=
  Particle.new ⟨1, 2, 3⟩ ⟨4, 5, 6⟩ ⟨7, 8, 9⟩ 1

/-- The magnitude is a square root, hence nonnegative. -/
theorem Vector3.magnitude_nonneg (v : Vector3) : 0 ≤ v.magnitude :=
  Real.sqrt_nonneg _

/-- Scaling a vector scales its magnitude by the absolute value of the scalar. -/
theorem Vector3.magnitude_mul_assign (v : Vector3) (s : ℝ) :
    (v.mul_assign s).magnitude = |s| * v.magnitude := by
  unfold Vector3.mul_assign Vector3.magnitude
  have h : v.x * s * (v.x * s) + v.y * s * (v.y * s) + v.z * s * (v.z * s)
      = (s * s) * (v.x * v.x + v.y * v.y + v.z * v.z) := by ring
  rw [h, Real.sqrt_mul (mul_self_nonneg s), Real.sqrt_mul_self_eq_abs]

/-- C1: the in-place cross-product assignment does not agree with the pure
cross product: at a = (1,0,0), b = (0,1,0) the RemAssign overload produces
(0,0,0) while vector_product produces (0,0,1), because the second result
component is computed from the already-overwritten x component and subtracts
rhs.z instead of multiplying by it. -/
theorem c1_rem_assign_not_vector_product :
    Vector3.rem_assign ⟨1, 0, 0⟩ ⟨0, 1, 0⟩ = ⟨0, 0, 0⟩ ∧
    Vector3.vector_product ⟨1, 0, 0⟩ ⟨0, 1, 0⟩ = ⟨0, 0, 1⟩ ∧
    Vector3.rem_assign ⟨1, 0, 0⟩ ⟨0, 1, 0⟩ ≠
      Vector3.vector_product ⟨1, 0, 0⟩ ⟨0, 1, 0⟩ := by
  refine ⟨?_, ?_, ?_⟩ <;>
    norm_num [Vector3.rem_assign, Vector3.vector_product, Vector3.mk.injEq]

/-- C2 counterexample: on the scenario particle, integrate 1 computes
position (1, 0, 0) rather than the claimed (1, -9.8, 0), because the
position step uses the velocity from before the acceleration update. -/
theorem c2_position_not_claimed :
    Option.map Particle.position (scenarioParticle.integrate 1) = some ⟨1, 0, 0⟩ ∧
    (⟨1, 0, 0⟩ : Vector3) ≠ (⟨1, -9.8, 0⟩ : Vector3) := by
  constructor
  · norm_num [scenarioParticle, Particle.new, Particle.integrate,
      Vector3.add_scaled_vector, Vector3.mk.injEq]
  · norm_num [Vector3.mk.injEq]

/-- C2 amended: integrate 1 on the scenario particle computes position
(1, 0, 0) and velocity (1, -9.8, 0). -/
theorem c2_integrate_scenario :
    ∃ q : Particle, scenarioParticle.integrate 1 = some q ∧
      q.position = ⟨1, 0, 0⟩ ∧ q.velocity = ⟨1, -9.8, 0⟩ := by
  refine ⟨⟨⟨1, 0, 0⟩, ⟨1, -9.8, 0⟩, ⟨0, -9.8, 0⟩, 1, ⟨0, 0, 0⟩, 0⟩, ?_, rfl, rfl⟩
  norm_num [scenarioParticle, Particle.new, Particle.integrate,
    Vector3.add_scaled_vector, Vector3.mul_assign, Real.one_rpow,
    Particle.mk.injEq, Vector3.mk.injEq]

/-- C3: set_mass, set_inverse_mass and integrate take the receiver by value
(Particle is Copy), so a successful call leaves the caller's particle, all
fields included, exactly as it was. -/
theorem c3_calls_leave_caller_unchanged (p : Particle) (m d : ℝ)
    (hm : m ≠ 0) (hd : 0 < d) :
    p.set_mass_call m = some p ∧
    p.set_inverse_mass_call m = p ∧
    p.integrate_call d = some p := by
  refine ⟨?_, rfl, ?_⟩
  · simp [Particle.set_mass_call, Particle.set_mass, hm]
  · simp [Particle.integrate_call, Particle.integrate, hd]

/-- C3 witness at a concrete particle, mass 2 and duration 1. -/
theorem c3_witness :
    (Particle.new ⟨1, 2, 3⟩ ⟨4, 5, 6⟩ ⟨7, 8, 9⟩ 1).set_mass_call 2 =
        some (Particle.new ⟨1, 2, 3⟩ ⟨4, 5, 6⟩ ⟨7, 8, 9⟩ 1) ∧
    (Particle.new ⟨1, 2, 3⟩ ⟨4, 5, 6⟩ ⟨7, 8, 9⟩ 1).set_inverse_mass_call 2 =
        Particle.new ⟨1, 2, 3⟩ ⟨4, 5, 6⟩ ⟨7, 8, 9⟩ 1 ∧
    (Particle.new ⟨1, 2, 3⟩ ⟨4, 5, 6⟩ ⟨7, 8, 9⟩ 1).integrate_call 1 =
        some (Particle.new ⟨1, 2, 3⟩ ⟨4, 5, 6⟩ ⟨7, 8, 9⟩ 1) :=
  c3_calls_leave_caller_unchanged _ 2 1 (by norm_num) (by norm_num)

/-- C4: for a positive duration, integrate advances the position with the
pre-step velocity, then adds acceleration times duration to the velocity,
then multiplies the velocity by damping raised to the duration; every other
field is unchanged. -/
theorem c4_integrate_order (p : Particle) (d : ℝ) (hd : 0 < d) :
    p.integrate d = some
      { p with
        position := ⟨p.position.x + p.velocity.x * d,
                     p.position.y + p.velocity.y * d,
                     p.position.z + p.velocity.z * d⟩,
        velocity := ⟨(p.velocity.x + p.acceleration.x * d) * Real.rpow p.damping d,
                     (p.velocity.y + p.acceleration.y * d) * Real.rpow p.damping d,
                     (p.velocity.z + p.acceleration.z * d) * Real.rpow p.damping d⟩ } := by
  simp [Particle.integrate, hd, Vector3.add_scaled_vector, Vector3.mul_assign]

/-- C4 witness: the velocity computed by integrate 1 on the demo particle. -/
theorem c4_witness :
    Option.map Particle.velocity (demoParticle.integrate 1) =
      some ⟨(4 + 7 * 1) * Real.rpow 1 1, (5 + 8 * 1) * Real.rpow 1 1,
            (6 + 9 * 1) * Real.rpow 1 1⟩ := by
  rw [c4_integrate_order demoParticle 1 (by norm_num)]
  simp [demoParticle, Particle.new]

/-- C5: integrate fails its assertion exactly when the duration is not
positive, and set_mass exactly when the mass is zero; in every other case
both complete (neither precondition is clamped or ignored). -/
theorem c5_assert_iff (p : Particle) (d m : ℝ) :
    (p.integrate d = none ↔ d ≤ 0) ∧ (p.set_mass m = none ↔ m = 0) := by
  constructor
  · rcases lt_or_le 0 d with h | h
    · simp [Particle.integrate, h, not_le]
    · simp [Particle.integrate, not_lt.mpr h, h]
  · by_cases h : m = 0
    · simp [Particle.set_mass, h]
    · simp [Particle.set_mass, h]

/-- C6 evaluation: on a fresh particle (inverse mass 0) the set_mass 2 call
succeeds but mutates only the callee's by-value copy, so the caller's
particle still reports the immovable sentinel, the maximum finite f64 value,
rather than 2 - while the state the method computed locally would report
exactly 2. -/
theorem c6_mass_round_trip_fails :
    (Particle.new ⟨0, 0, 0⟩ ⟨0, 0, 0⟩ ⟨0, 0, 0⟩ 1).set_mass_call 2 =
      some (Particle.new ⟨0, 0, 0⟩ ⟨0, 0, 0⟩ ⟨0, 0, 0⟩ 1) ∧
    (Particle.new ⟨0, 0, 0⟩ ⟨0, 0, 0⟩ ⟨0, 0, 0⟩ 1).get_mass = f64Max ∧
    f64Max ≠ 2 ∧
    Option.map Particle.get_mass
        ((Particle.new ⟨0, 0, 0⟩ ⟨0, 0, 0⟩ ⟨0, 0, 0⟩ 1).set_mass 2) = some 2 := by
  refine ⟨?_, ?_, ?_, ?_⟩
  · norm_num [Particle.set_mass_call, Particle.set_mass]
  · norm_num [Particle.get_mass, Particle.new]
  · norm_num [f64Max]
  · norm_num [Particle.set_mass, Particle.get_mass, Particle.new]

/-- C7: get_mass returns the reciprocal of a nonzero inverse mass, and the
maximum finite f64 value as the immovable sentinel when the inverse mass is
zero. -/
theorem c7_get_mass_cases (p : Particle) :
    (p.inverse_mass ≠ 0 → p.get_mass = 1 / p.inverse_mass) ∧
    (p.inverse_mass = 0 → p.get_mass = f64Max) := by
  constructor <;> intro h <;> simp [Particle.get_mass, h]

/-- C7 witness: a fresh particle reports the sentinel, and after storing
inverse mass 2 the reported mass is its reciprocal. -/
theorem c7_witness :
    (Particle.new ⟨0, 0, 0⟩ ⟨0, 0, 0⟩ ⟨0, 0, 0⟩ 1).get_mass = f64Max ∧
    ((Particle.new ⟨0, 0, 0⟩ ⟨0, 0, 0⟩ ⟨0, 0, 0⟩ 1).set_inverse_mass 2).get_mass =
      1 / ((Particle.new ⟨0, 0, 0⟩ ⟨0, 0, 0⟩ ⟨0, 0, 0⟩ 1).set_inverse_mass 2).inverse_mass :=
  ⟨(c7_get_mass_cases _).2 rfl,
   (c7_get_mass_cases _).1 (by norm_num [Particle.set_inverse_mass])⟩

/-- C8: normalizing a zero-magnitude vector is a no-op for the in-place
normalize and for get_normalized; get_normalized never touches the caller's
vector, and returns a unit vector whenever the magnitude is nonzero. -/
theorem c8_normalize_contract (v : Vector3) :
    (v.magnitude = 0 → v.normalize = v ∧ v.get_normalized = v) ∧
    (byValueCall v Vector3.get_normalized).1 = v ∧
    (v.magnitude ≠ 0 → (v.get_normalized).magnitude = 1) := by
  refine ⟨?_, rfl, ?_⟩
  · intro h
    constructor <;> simp [Vector3.normalize, Vector3.get_normalized, h]
  · intro h
    have hpos : 0 < v.magnitude := lt_of_le_of_ne v.magnitude_nonneg (Ne.symm h)
    have hne : v.magnitude ≠ 0 := ne_of_gt hpos
    rw [Vector3.get_normalized]
    simp only [hpos, if_pos]
    rw [Vector3.magnitude_mul_assign, abs_of_pos (by positivity)]
    field_simp

/-- C8 witness: the zero vector is left unchanged by normalize, and (3,4,0)
normalizes to a unit vector. -/
theorem c8_witness :
    Vector3.normalize ⟨0, 0, 0⟩ = ⟨0, 0, 0⟩ ∧
    Vector3.magnitude (Vector3.get_normalized ⟨3, 4, 0⟩) = 1 := by
  have h0 : Vector3.magnitude ⟨0, 0, 0⟩ = 0 := by
    rw [Vector3.magnitude]
    norm_num
  have h5 : Vector3.magnitude ⟨3, 4, 0⟩ = 5 := by
    rw [Vector3.magnitude]
    rw [show (3 : ℝ) * 3 + 4 * 4 + 0 * 0 = 5 ^ 2 by norm_num]
    exact Real.sqrt_sq (by norm_num)
  exact ⟨((c8_normalize_contract ⟨0, 0, 0⟩).1 h0).1,
         (c8_normalize_contract ⟨3, 4, 0⟩).2.2 (by rw [h5]; norm_num)⟩

/-- C9: the magnitude is nonnegative, and is zero exactly on the zero
vector. -/
theorem c9_magnitude_nonneg_zero_iff (v : Vector3) :
    0 ≤ v.magnitude ∧ (v.magnitude = 0 ↔ v.x = 0 ∧ v.y = 0 ∧ v.z = 0) := by
  refine ⟨v.magnitude_nonneg, ?_⟩
  rw [Vector3.magnitude, Real.sqrt_eq_zero']
  constructor
  · intro h
    have hx : v.x * v.x = 0 :=
      le_antisymm (by linarith [mul_self_nonneg v.y, mul_self_nonneg v.z])
        (mul_self_nonneg v.x)
    have hy : v.y * v.y = 0 :=
      le_antisymm (by linarith [mul_self_nonneg v.x, mul_self_nonneg v.z])
        (mul_self_nonneg v.y)
    have hz : v.z * v.z = 0 :=
      le_antisymm (by linarith [mul_self_nonneg v.x, mul_self_nonneg v.y])
        (mul_self_nonneg v.z)
    exact ⟨mul_self_eq_zero.mp hx, mul_self_eq_zero.mp hy, mul_self_eq_zero.mp hz⟩
  · rintro ⟨hx, hy, hz⟩
    rw [hx, hy, hz]
    norm_num

/-- C10: the cross product is anti-commutative, for vector_product and for
the Rem overload alike: swapping the operands yields the inverted vector. -/
theorem c10_cross_anticommutative (a b : Vector3) :
    a.vector_product b = (b.vector_product a).invert ∧
    a.rem b = (b.rem a).invert := by
  constructor <;>
  · simp only [Vector3.vector_product, Vector3.rem, Vector3.invert, Vector3.mk.injEq]
    refine ⟨by ring, by ring, by ring⟩

end Kellenth
